import Mathlib

/-!
Verification of the fetchr parallel downloader against its specification.

The definitions below are shallow embeddings of the Python code in
src/fetchr/parallel.py, src/fetchr/concurrency_manager.py and
src/fetchr/main.py.  Python integers are modelled as `Int` (or `Nat` where
the source value is a file size or byte count, hence nonnegative), Python
floor division `//` as `Int.fdiv`, file contents as `List Nat` (one entry
per byte), and a possibly-absent file as `Option`.
-/

namespace Fetchr

/-- Embedding of the segment-list computation at the top of
`ParallelDownloader._download_parallel` (src/fetchr/parallel.py):
`segment_size = total_size // parallel_connections`; segment `i` starts at
`i * segment_size`; the last segment ends at `total_size - 1`, every other
segment at `start + segment_size - 1`.  The code performs no clamping of
`parallel_connections`; for `n = 0` Python raises `ZeroDivisionError`, so
theorems only consider `1 ≤ n`. -/
def planSegments (totalSize : Int) (n : Nat) : List (Nat × Int × Int) :=
  let segmentSize := Int.fdiv totalSize (Int.ofNat n)
  (List.range n).map (fun i =>
    let start := Int.ofNat i * segmentSize
    let endByte := if i = n - 1 then totalSize - 1 else start + segmentSize - 1
    (i, start, endByte))

/-- `end_byte - start_byte + 1`, the expected size of a segment, as computed
throughout src/fetchr/parallel.py. -/
def expectedSize (seg : Nat × Int × Int) : Int :=
  seg.2.2 - seg.2.1 + 1

/-- The segment at index `i` of the plan (defaulting to a dummy for an
out-of-range index). -/
def segAt (totalSize : Int) (n i : Nat) : Nat × Int × Int :=
  (planSegments totalSize n).getD i (0, 0, 0)

lemma planSegments_length (t : Int) (n : Nat) : (planSegments t n).length = n := by
  simp [planSegments]

lemma segAt_eq (t : Int) (n i : Nat) (h : i < n) :
    segAt t n i =
      (i, (i : Int) * Int.fdiv t (n : Int),
        if i = n - 1 then t - 1
        else (i : Int) * Int.fdiv t (n : Int) + Int.fdiv t (n : Int) - 1) := by
  simp [segAt, planSegments, List.getD_eq_getElem?_getD, List.getElem?_map,
    List.getElem?_range, h]

lemma sum_map_range_split (g : Nat → Int) (n : Nat) (hn : 1 ≤ n) :
    ((List.range n).map g).sum = ((List.range (n - 1)).map g).sum + g (n - 1) := by
  obtain ⟨m, rfl⟩ : ∃ m, n = m + 1 := ⟨n - 1, by omega⟩
  simp [List.range_succ]

lemma sum_map_range_const (g : Nat → Int) (s : Int) (m : Nat) (hg : ∀ i < m, g i = s) :
    ((List.range m).map g).sum = (m : Int) * s := by
  induction m with
  | zero => simp
  | succ k ih =>
      rw [List.range_succ]
      simp only [List.map_append, List.map_cons, List.map_nil, List.sum_append,
        List.sum_cons, List.sum_nil]
      rw [ih (fun i hi => hg i (by omega)), hg k (by omega)]
      push_cast
      ring

/-- C1: for `total_size ≥ 1` and `1 ≤ parallelism ≤ total_size`, the segment
plan of `_download_parallel` is a partition of `[0, total_size - 1]`: `n`
segments, the first starting at byte `0`, the last ending at
`total_size - 1`, each next segment starting right after the previous one,
every segment nonempty, segments pairwise non-overlapping, segment `i` for
`i < n - 1` spanning exactly
`[i * (total_size // n), i * (total_size // n) + total_size // n - 1]`,
the last segment absorbing the remainder, and the expected sizes summing to
`total_size`. -/
theorem seg_plan_partition (t : Int) (n : Nat) (ht : 1 ≤ t) (hn : 1 ≤ n)
    (hnt : (n : Int) ≤ t) :
    (planSegments t n).length = n ∧
    (segAt t n 0).2.1 = 0 ∧
    (segAt t n (n - 1)).2.2 = t - 1 ∧
    (∀ i, i + 1 < n → (segAt t n (i + 1)).2.1 = (segAt t n i).2.2 + 1) ∧
    (∀ i, i < n → 1 ≤ expectedSize (segAt t n i)) ∧
    (∀ i j, i < j → j < n → (segAt t n i).2.2 < (segAt t n j).2.1) ∧
    (∀ i, i < n - 1 →
      segAt t n i =
        (i, (i : Int) * Int.fdiv t (n : Int),
          (i : Int) * Int.fdiv t (n : Int) + Int.fdiv t (n : Int) - 1)) ∧
    segAt t n (n - 1) =
      (n - 1, ((n : Int) - 1) * Int.fdiv t (n : Int), t - 1) ∧
    ((planSegments t n).map expectedSize).sum = t := by
  have hn0 : (0 : Int) < (n : Int) := by exact_mod_cast hn
  have hcast : ((n - 1 : Nat) : Int) = (n : Int) - 1 := by
    rw [Nat.cast_sub hn, Nat.cast_one]
  have hmap : (planSegments t n).map expectedSize
      = (List.range n).map
          (fun i => if i = n - 1 then t - ((n : Int) - 1) * Int.fdiv t (n : Int)
            else Int.fdiv t (n : Int)) := by
    unfold planSegments expectedSize
    rw [List.map_map]
    refine List.map_congr_left (fun i hi => ?_)
    simp only [Function.comp, Int.ofNat_eq_coe]
    by_cases hil : i = n - 1
    · subst hil
      rw [if_pos rfl, if_pos rfl, hcast]
      ring
    · rw [if_neg hil, if_neg hil]
      ring
  obtain ⟨s, hsg⟩ : ∃ s, Int.fdiv t (n : Int) = s := ⟨_, rfl⟩
  rw [hsg] at hmap
  simp only [hsg]
  have hsed : s = t / (n : Int) := by
    rw [← hsg]
    exact Int.fdiv_eq_ediv t (le_of_lt hn0)
  have hs1 : (1 : Int) ≤ s := by
    rw [hsed, Int.le_ediv_iff_mul_le hn0]
    linarith
  have hns : (n : Int) * s ≤ t := by
    rw [hsed, mul_comm]
    exact Int.ediv_mul_le t (ne_of_gt hn0)
  have hstart : ∀ i, i < n → (segAt t n i).2.1 = (i : Int) * s := by
    intro i hi
    rw [segAt_eq t n i hi, hsg]
  have hend : ∀ i, i < n → (segAt t n i).2.2 =
      if i = n - 1 then t - 1 else (i : Int) * s + s - 1 := by
    intro i hi
    rw [segAt_eq t n i hi, hsg]
  refine ⟨planSegments_length t n, ?_, ?_, ?_, ?_, ?_, ?_, ?_, ?_⟩
  · rw [hstart 0 (by omega)]; ring
  · rw [hend (n - 1) (by omega), if_pos rfl]
  · intro i hi
    rw [hstart (i + 1) hi, hend i (by omega), if_neg (by omega)]
    push_cast
    ring
  · intro i hi
    rw [expectedSize, hstart i hi, hend i hi]
    by_cases hil : i = n - 1
    · subst hil
      rw [if_pos rfl, hcast]
      have hle : ((n : Int) - 1) * s ≤ t - s := by nlinarith
      linarith
    · rw [if_neg hil]
      linarith
  · intro i j hij hjn
    rw [hend i (by omega), hstart j hjn, if_neg (by omega)]
    have hle : ((i : Int) + 1) * s ≤ (j : Int) * s := by
      have hij' : ((i : Int) + 1) ≤ (j : Int) := by exact_mod_cast hij
      nlinarith
    nlinarith
  · intro i hi
    rw [segAt_eq t n i (by omega), hsg, if_neg (by omega)]
  · rw [segAt_eq t n (n - 1) (by omega), hsg, if_pos rfl, hcast]
  · rw [hmap, sum_map_range_split _ n hn,
      sum_map_range_const _ s (n - 1) (fun i hi => if_neg (by omega)),
      if_pos rfl, hcast]
    ring

/-- Witness for `seg_plan_partition` at `total_size = 10`, `parallelism = 3`:
the plan is `[(0,0,2), (1,3,5), (2,6,9)]`, segment 1 starts right after
segment 0 ends, and the expected sizes sum to 10. -/
theorem seg_plan_partition_witness :
    (planSegments 10 3).length = 3 ∧
    (segAt 10 3 1).2.1 = (segAt 10 3 0).2.2 + 1 ∧
    ((planSegments 10 3).map expectedSize).sum = 10 := by
  obtain ⟨h1, _, _, h4, _, _, _, _, h9⟩ :=
    seg_plan_partition 10 3 (by decide) (by decide) (by decide)
  exact ⟨h1, h4 0 (by decide), h9⟩

/-- C9 counterexample: `_download_parallel` performs no clamping of the
requested parallelism.  With `total_size = 2` and `parallelism = 3` the
code produces 3 segments — more segments than bytes — and the first
segment is empty (expected size 0), contradicting the claim that the
number of segments never exceeds `total_size` and that every produced
segment is non-empty. -/
theorem plan_no_clamp_cex :
    planSegments 2 3 = [(0, 0, -1), (1, 0, -1), (2, 0, 1)] ∧
    ¬ ((planSegments 2 3).length ≤ 2) ∧
    ¬ (1 ≤ expectedSize (segAt 2 3 0)) := by decide

/-- C9 amended: the segment computation does not clamp `parallelism`.  For
`total_size ≥ 1` and `parallelism > total_size` it produces `parallelism`
segments; every segment except the last is the degenerate empty range
`(i, 0, -1)` of expected size 0, and the last spans the whole file
`[0, total_size - 1]`.  (A parallelism of 0 raises `ZeroDivisionError` in
Python and negative parallelism yields an empty plan, so only positive
values are considered.) -/
theorem plan_overcommit (t : Int) (n : Nat) (ht : 1 ≤ t) (htn : t < (n : Int)) :
    (planSegments t n).length = n ∧
    (∀ i, i < n - 1 → segAt t n i = (i, 0, -1) ∧ expectedSize (segAt t n i) = 0) ∧
    segAt t n (n - 1) = (n - 1, 0, t - 1) := by
  have hs0 : Int.fdiv t (n : Int) = 0 := by
    rw [Int.fdiv_eq_ediv t (by positivity)]
    exact Int.ediv_eq_zero_of_lt (by linarith) htn
  have hn1 : 1 ≤ n := by
    by_contra hc
    interval_cases n
    · simp at htn; linarith
  refine ⟨planSegments_length t n, ?_, ?_⟩
  · intro i hi
    have h1 : segAt t n i = (i, 0, -1) := by
      rw [segAt_eq t n i (by omega), hs0, if_neg (by omega)]
      simp
    exact ⟨h1, by rw [expectedSize, h1]; ring⟩
  · rw [segAt_eq t n (n - 1) (by omega), if_pos rfl]
    simp [hs0]

/-- Witness for `plan_overcommit` at `total_size = 2`, `parallelism = 3`. -/
theorem plan_overcommit_witness :
    (planSegments 2 3).length = 3 ∧ segAt 2 3 0 = (0, 0, -1) ∧
    segAt 2 3 2 = (2, 0, 1) := by
  obtain ⟨h1, h2, h3⟩ := plan_overcommit 2 3 (by decide) (by decide)
  exact ⟨h1, (h2 0 (by decide)).1, h3⟩

/-- Embedding of the helper `get_current_start` inside
`ParallelDownloader._download_segment` (src/fetchr/parallel.py).  The
segment artifact on disk is `artifact : Option Nat` (its size when it
exists).  The result is the pair (artifact after the call, computed start):
`none` as the computed start means the segment is already treated as
complete.  The Python float comparison `existing_size > segment_size * 1.1`
is modelled exactly by the rational inequality
`10 * existing_size > 11 * segment_size`; at every concrete input used in
the theorems below the two comparisons agree. -/
def getCurrentStart (artifact : Option Nat) (startByte segmentSize : Nat) :
    Option Nat × Option Nat :=
  match artifact with
  | none => (none, some startByte)
  | some existingSize =>
      if existingSize = segmentSize then (some existingSize, none)
      else if existingSize < segmentSize then
        (some existingSize, some (startByte + existingSize))
      else if 10 * existingSize > 11 * segmentSize then (none, some startByte)
      else (some existingSize, none)

/-- The `Range` header value `f'bytes={current_start}-{end_byte}'` built in
`_download_segment_with_aiohttp` (src/fetchr/parallel.py). -/
def rangeHeaderValue (currentStart endByte : Nat) : String :=
  s!"bytes={currentStart}-{endByte}"

/-- One fetch attempt of `_download_segment_with_aiohttp`: the attempt first
recomputes `current_start` from the artifact on disk; if it is `none` the
attempt returns success without issuing any request, otherwise it issues a
ranged GET whose `Range` header covers `current_start` through `end_byte`. -/
def attemptSetup (artifact : Option Nat) (startByte endByte : Nat) :
    Option Nat × Option (Nat × String) :=
  let r := getCurrentStart artifact startByte (endByte - startByte + 1)
  match r.2 with
  | none => (r.1, none)
  | some cs => (r.1, some (cs, rangeHeaderValue cs endByte))

/-- The artifact is opened with mode `'ab'` (append): writing `bytes` bytes
extends the existing artifact, never truncating or rewriting it. -/
def appendWrite (artifact : Option Nat) (bytes : Nat) : Option Nat :=
  some (artifact.getD 0 + bytes)

/-- C2 counterexample: an artifact of size 105 against an expected segment
size of 100 is strictly oversized, yet `get_current_start` neither deletes
it nor restarts the byte range (the claim demands the result
`(none, some start_byte)`): the code keeps the artifact and reports the
segment complete, because the oversize is within the 10 percent tolerance
`existing_size > segment_size * 1.1`. -/
theorem oversize_tolerated_cex :
    100 < 105 ∧
    ¬ (getCurrentStart (some 105) 0 100 = (none, some 0)) ∧
    getCurrentStart (some 105) 0 100 = (some 105, none) := by decide

/-- C2 amended: before any network request the worker recomputes the
artifact size; equality with the expected size yields immediate success; a
smaller size resumes at `start_byte + existing_size`; an artifact more than
10 percent oversized (`existing > expected * 1.1`) is deleted and the range
restarts from the original `start_byte`; an oversized artifact within the
10 percent tolerance is kept and treated as complete (never truncated in
place). -/
theorem current_start_spec (sz segSize startB : Nat) :
    (getCurrentStart none startB segSize = (none, some startB)) ∧
    (sz = segSize → getCurrentStart (some sz) startB segSize = (some sz, none)) ∧
    (sz < segSize →
      getCurrentStart (some sz) startB segSize = (some sz, some (startB + sz))) ∧
    (10 * sz > 11 * segSize →
      getCurrentStart (some sz) startB segSize = (none, some startB)) ∧
    (segSize < sz → 10 * sz ≤ 11 * segSize →
      getCurrentStart (some sz) startB segSize = (some sz, none)) := by
  refine ⟨rfl, ?_, ?_, ?_, ?_⟩
  · intro h
    simp only [getCurrentStart, if_pos h]
  · intro h
    simp only [getCurrentStart]
    rw [if_neg (by omega), if_pos h]
  · intro h
    simp only [getCurrentStart]
    rw [if_neg (by omega), if_neg (by omega), if_pos h]
  · intro h1 h2
    simp only [getCurrentStart]
    rw [if_neg (by omega), if_neg (by omega), if_neg (by omega)]

/-- Witness for `current_start_spec`: all five branches at concrete sizes
(expected size 10 except the tolerance branch, which uses 105 vs 100). -/
theorem current_start_spec_witness :
    getCurrentStart none 3 10 = (none, some 3) ∧
    getCurrentStart (some 10) 3 10 = (some 10, none) ∧
    getCurrentStart (some 4) 3 10 = (some 4, some 7) ∧
    getCurrentStart (some 12) 3 10 = (none, some 3) ∧
    getCurrentStart (some 105) 3 100 = (some 105, none) :=
  ⟨(current_start_spec 0 10 3).1,
   (current_start_spec 10 10 3).2.1 rfl,
   (current_start_spec 4 10 3).2.2.1 (by decide),
   (current_start_spec 12 10 3).2.2.2.1 (by decide),
   (current_start_spec 105 100 3).2.2.2.2 (by decide) (by decide)⟩

/-- C6: an artifact with size strictly between 0 and the expected segment
size makes the (re)fetch attempt compute
`current_start = start_byte + existing_size`, issue a ranged GET with
header value `bytes={current_start}-{end_byte}`, and keep the artifact;
writing the remaining bytes in append mode then extends it to exactly the
expected segment size (the artifact is never truncated or rewritten). -/
theorem resume_range_request (startB endB exSz : Nat) (h0 : 0 < exSz)
    (hlt : exSz < endB - startB + 1) :
    attemptSetup (some exSz) startB endB =
      (some exSz, some (startB + exSz, rangeHeaderValue (startB + exSz) endB)) ∧
    appendWrite (some exSz) (endB - (startB + exSz) + 1) =
      some (endB - startB + 1) := by
  constructor
  · simp only [attemptSetup, getCurrentStart]
    rw [if_neg (by omega), if_pos hlt]
  · simp only [appendWrite, Option.getD]
    congr 1
    omega

/-- Witness for `resume_range_request`: the scenario of the specification —
segment 1 spans bytes 3 to 5, its artifact holds 1 byte, so the resumed
request carries `Range: bytes=4-5` (not `bytes=3-5`) and appending the 2
remaining bytes completes the 3-byte segment. -/
theorem resume_range_request_witness :
    attemptSetup (some 1) 3 5 = (some 1, some (4, "bytes=4-5")) ∧
    appendWrite (some 1) 2 = some 3 := by
  have h := resume_range_request 3 5 1 (by decide) (by decide)
  exact ⟨h.1, h.2⟩

/-- The files `_download_parallel` touches: the final artifact at
`file_path` and the per-segment artifacts `{filename}.part{i}` (index i in
list order).  A file is `none` when absent, otherwise its content is a list
of bytes. -/
structure SegFS where
  final : Option (List Nat)
  parts : List (Option (List Nat))
  deriving DecidableEq, Repr

/-- The validation loop at the head of `_assemble_segments`
(src/fetchr/parallel.py): every segment artifact must exist and, when the
expected sizes are provided, have exactly its expected size.  Returns
`false` exactly when the Python loop raises before any byte of the final
file is written. -/
def segCheck : List (Option (List Nat)) → List Nat → Bool
  | [], [] => true
  | some c :: ps, e :: es => c.length == e && segCheck ps es
  | none :: _, _ => false
  | _, _ => false

/-- The copy loop of `_assemble_segments`: segment contents are streamed
into the final file in index order (accumulator semantics of opening the
final file with `'wb'` and appending each segment). -/
def copyParts (acc : List Nat) : List (Option (List Nat)) → List Nat
  | [] => acc
  | p :: ps => copyParts (acc ++ p.getD []) ps

/-- Embedding of `ParallelDownloader._assemble_segments`: validate every
segment, abort (state unchanged) on any validation failure, otherwise
stream-copy the segments in index order into the final file, delete each
segment artifact, then check the final size against the validated total and
against the sum of the expected sizes.  The second component is the raised
error, `none` on success. -/
def assembleSegs (fs : SegFS) (expected : List Nat) : SegFS × Option String :=
  if segCheck fs.parts expected = false then
    (fs, some "segment validation failed")
  else
    let total := (fs.parts.map (fun p => (p.getD []).length)).sum
    let content := copyParts [] fs.parts
    let fs' : SegFS := ⟨some content, fs.parts.map (fun _ => none)⟩
    if content.length ≠ total then (fs', some "final file size mismatch")
    else if total ≠ expected.sum then (fs', some "integrity check failed")
    else (fs', none)

/-- The indices of failed workers, as collected from
`asyncio.gather(..., return_exceptions=True)` in `_download_parallel`
(`results[i]` is an exception exactly when `results.getD i true = false`). -/
def failedIdxs (results : List Bool) : List Nat :=
  (List.range results.length).filter (fun i => results.getD i true = false)

/-- `preserved_bytes` as computed in `_download_parallel` for logging: the
sum of `expected_size` over the successful segments. -/
def preservedBytes (expected : List Nat) (results : List Bool) : Nat :=
  (((List.range results.length).filter
      (fun i => results.getD i true = true)).map
    (fun i => expected.getD i 0)).sum

/-- Embedding of the tail of `_download_parallel` after
`asyncio.gather(*tasks, return_exceptions=True)` returns: if any segment
failed, raise (state untouched — no assembly, no deletion) with the message
the code interpolates, which contains only the number of failed segments;
otherwise assemble. -/
def gatherFinish (fs : SegFS) (expected : List Nat) (results : List Bool) :
    SegFS × Option String :=
  if (failedIdxs results).isEmpty = false then
    (fs, some s!"Download failed: {(failedIdxs results).length} segments failed after all retries - but progress preserved for resume")
  else
    assembleSegs fs expected

/-- Segment classification of `_get_segment_status`
(src/fetchr/parallel.py): `full` = size equals expected (`complete`),
`resumable` = smaller (`partial`), `oversized` = larger (`corrupted`),
`missing` = artifact absent. -/
inductive SegClass where
  | full
  | resumable
  | missing
  | oversized
  deriving DecidableEq, Repr

/-- Classify one segment artifact exactly as `_get_segment_status` does. -/
def classifySeg (p : Option (List Nat)) (expected : Nat) : SegClass :=
  match p with
  | none => SegClass.missing
  | some c =>
      if c.length = expected then SegClass.full
      else if c.length < expected then SegClass.resumable
      else SegClass.oversized

/-- Whether `_get_segment_status` reports at least one `corrupted`
segment. -/
def hasCorrupted (parts : List (Option (List Nat))) (expected : List Nat) : Bool :=
  (parts.zip expected).any
    (fun pe => decide (classifySeg pe.1 pe.2 = SegClass.oversized))

/-- Embedding of `_cleanup_corrupted_segments`: every existing segment
artifact whose actual size differs from its expected size is unlinked;
artifacts of exactly the expected size are kept. -/
def cleanupCorrupted (parts : List (Option (List Nat))) (expected : List Nat) :
    List (Option (List Nat)) :=
  (parts.zip expected).map
    (fun pe =>
      match pe.1 with
      | none => none
      | some c => if c.length ≠ pe.2 then none else some c)

/-- The corruption handling in `_download_parallel` before the workers are
started: `_cleanup_corrupted_segments` is invoked only when the status
report lists at least one corrupted segment. -/
def preFetchCleanup (parts : List (Option (List Nat))) (expected : List Nat) :
    List (Option (List Nat)) :=
  if hasCorrupted parts expected then cleanupCorrupted parts expected else parts

lemma copyParts_eq (ps : List (Option (List Nat))) (acc : List Nat) :
    copyParts acc ps = acc ++ (ps.map (fun p => p.getD [])).flatten := by
  induction ps generalizing acc with
  | nil => simp [copyParts]
  | cons p ps ih => simp [copyParts, ih, List.append_assoc]

lemma segCheck_sum (ps : List (Option (List Nat))) (es : List Nat)
    (h : segCheck ps es = true) :
    (ps.map (fun p => (p.getD []).length)).sum = es.sum := by
  induction ps generalizing es with
  | nil =>
      cases es with
      | nil => simp
      | cons e es => simp [segCheck] at h
  | cons p ps ih =>
      cases p with
      | none => simp [segCheck] at h
      | some c =>
          cases es with
          | nil => simp [segCheck] at h
          | cons e es =>
              simp only [segCheck, Bool.and_eq_true, beq_iff_eq] at h
              simp [h.1, ih es h.2]

/-- C4: `_assemble_segments` validates every segment before opening the
final file — on any missing segment or size mismatch it fails with the
state untouched (no partial final-file writes) — and on success it
stream-copies the artifacts in index order into the final file, deletes
every segment artifact, and the final size equals the sum of the expected
segment sizes, so neither size check raises. -/
theorem assemble_validates (fs : SegFS) (expected : List Nat) :
    (segCheck fs.parts expected = false →
      assembleSegs fs expected = (fs, some "segment validation failed")) ∧
    (segCheck fs.parts expected = true →
      assembleSegs fs expected =
        (⟨some ((fs.parts.map (fun p => p.getD [])).flatten),
          fs.parts.map (fun _ => none)⟩, none) ∧
      ((fs.parts.map (fun p => p.getD [])).flatten).length = expected.sum) := by
  constructor
  · intro h
    simp [assembleSegs, h]
  · intro h
    have hjoin : copyParts [] fs.parts
        = (fs.parts.map (fun p => p.getD [])).flatten := by
      rw [copyParts_eq]
      simp
    have hsum := segCheck_sum _ _ h
    have hlen : ((fs.parts.map (fun p => p.getD [])).flatten).length
        = (fs.parts.map (fun p => (p.getD []).length)).sum := by
      rw [List.length_flatten, List.map_map]
      rfl
    refine ⟨?_, by rw [hlen, hsum]⟩
    simp only [assembleSegs, h, Bool.true_eq_false, if_false, hjoin]
    rw [if_neg (by rw [hlen]; simp), if_neg (by rw [hsum]; simp)]

/-- Witness for `assemble_validates`: a successful assembly of two segments
`[7,8]` and `[9]` into `[7,8,9]` with both artifacts deleted, and an
aborted assembly (missing segment 1) that leaves the state untouched. -/
theorem assemble_validates_witness :
    assembleSegs ⟨none, [some [7, 8], some [9]]⟩ [2, 1] =
      (⟨some [7, 8, 9], [none, none]⟩, none) ∧
    assembleSegs ⟨none, [some [7], none]⟩ [1, 1] =
      (⟨none, [some [7], none]⟩, some "segment validation failed") := by
  constructor
  · exact ((assemble_validates ⟨none, [some [7, 8], some [9]]⟩ [2, 1]).2
      (by decide)).1
  · exact (assemble_validates ⟨none, [some [7], none]⟩ [1, 1]).1 (by decide)

/-- C3 counterexample: two runs whose sets of failed segment indices differ
(`[0]` versus `[1]`) and whose preserved byte totals differ (7 versus 5)
produce the very same outcome — same untouched state and same error
message, which only interpolates the count of failed segments — so the
raised error carries neither the set of failed indices nor the total bytes
preserved. -/
theorem gather_error_count_cex :
    gatherFinish ⟨none, [some [1], none]⟩ [5, 7] [false, true] =
      gatherFinish ⟨none, [some [1], none]⟩ [5, 7] [true, false] ∧
    failedIdxs [false, true] ≠ failedIdxs [true, false] ∧
    preservedBytes [5, 7] [false, true] ≠ preservedBytes [5, 7] [true, false] := by
  decide

/-- C3 amended: when at least one segment worker fails, `_download_parallel`
(having awaited every worker through `asyncio.gather` with
`return_exceptions=True`) performs no assembly and deletes nothing — the
file state is returned untouched, so every successful or partial segment
artifact is preserved and the final artifact path is not created or
modified — and raises an error whose message carries the number of failed
segments (the failed index set and the preserved byte total are only
logged, not carried by the error). -/
theorem gather_failure_preserves (fs : SegFS) (expected : List Nat)
    (results : List Bool) (h : failedIdxs results ≠ []) :
    gatherFinish fs expected results =
      (fs, some s!"Download failed: {(failedIdxs results).length} segments failed after all retries - but progress preserved for resume") := by
  have hne : (failedIdxs results).isEmpty = false := by
    cases hh : failedIdxs results with
    | nil => exact absurd hh h
    | cons a l => simp
  simp [gatherFinish, hne]

/-- Witness for `gather_failure_preserves`: one failed segment out of two
leaves the state untouched and reports the count 1. -/
theorem gather_failure_preserves_witness :
    gatherFinish ⟨none, [some [1], none]⟩ [5, 7] [false, true] =
      (⟨none, [some [1], none]⟩,
        some "Download failed: 1 segments failed after all retries - but progress preserved for resume") := by
  have h := gather_failure_preserves ⟨none, [some [1], none]⟩ [5, 7]
    [false, true] (by decide)
  exact h

lemma cleanupCorrupted_getD (parts : List (Option (List Nat)))
    (expected : List Nat) :
    ∀ i, i < parts.length → i < expected.length →
      (cleanupCorrupted parts expected).getD i none =
        match parts.getD i none with
        | none => none
        | some c => if c.length ≠ expected.getD i 0 then none else some c := by
  induction parts generalizing expected with
  | nil => intro i hip _; simp at hip
  | cons p ps ih =>
      intro i hip hie
      cases expected with
      | nil => simp at hie
      | cons e es =>
          cases i with
          | zero => simp [cleanupCorrupted]
          | succ j =>
              have hj := ih es j (by simpa using hip) (by simpa using hie)
              simpa [cleanupCorrupted] using hj

/-- C5 counterexample: segment 0 grown to 7 bytes against an expected size
of 5 is corrupted; its sibling segment 1 holds 2 of 5 bytes and is merely
partial.  Running the pre-fetch corruption cleanup deletes *both*
artifacts, so the partial sibling is not left untouched as the claim
requires. -/
theorem cleanup_deletes_sibling_cex :
    classifySeg (some [0, 0, 0, 0, 0, 0, 0]) 5 = SegClass.oversized ∧
    classifySeg (some [0, 0]) 5 = SegClass.resumable ∧
    hasCorrupted [some [0, 0, 0, 0, 0, 0, 0], some [0, 0]] [5, 5] = true ∧
    ¬ ((preFetchCleanup [some [0, 0, 0, 0, 0, 0, 0], some [0, 0]]
        [5, 5]).getD 1 none = some [0, 0]) ∧
    preFetchCleanup [some [0, 0, 0, 0, 0, 0, 0], some [0, 0]] [5, 5] =
      [none, none] := by
  decide

/-- C5 amended: the pre-fetch cleanup runs only when the status report
lists at least one corrupted segment, and it then deletes *every* segment
artifact whose size differs from its expected size — corrupted and partial
alike — keeping exactly the complete artifacts; a deleted segment is
subsequently re-fetched from its original `start_byte`
(`get_current_start` on a missing artifact). -/
theorem cleanup_spec_amended (parts : List (Option (List Nat)))
    (expected : List Nat) (hlen : parts.length = expected.length) :
    (hasCorrupted parts expected = false →
      preFetchCleanup parts expected = parts) ∧
    (hasCorrupted parts expected = true →
      ∀ i, i < parts.length →
        (classifySeg (parts.getD i none) (expected.getD i 0) = SegClass.full →
          (preFetchCleanup parts expected).getD i none = parts.getD i none) ∧
        (classifySeg (parts.getD i none) (expected.getD i 0) ≠ SegClass.full →
          (preFetchCleanup parts expected).getD i none = none)) ∧
    (∀ startB segSize, getCurrentStart none startB segSize =
      (none, some startB)) := by
  refine ⟨?_, ?_, fun startB segSize => rfl⟩
  · intro h
    simp [preFetchCleanup, h]
  · intro h i hi
    have hpf : preFetchCleanup parts expected = cleanupCorrupted parts expected := by
      simp [preFetchCleanup, h]
    have hgd := cleanupCorrupted_getD parts expected i hi (by omega)
    rw [hpf, hgd]
    cases hp : parts.getD i none with
    | none => exact ⟨fun _ => rfl, fun _ => rfl⟩
    | some c =>
        constructor
        · intro hful
          simp only [classifySeg] at hful
          have hcl : c.length = expected.getD i 0 := by
            by_contra hne
            rw [if_neg hne] at hful
            split at hful <;> simp_all
          show (if c.length ≠ expected.getD i 0 then none else some c) = some c
          rw [if_neg (not_not_intro hcl)]
        · intro hnful
          simp only [classifySeg] at hnful
          have hne : c.length ≠ expected.getD i 0 := by
            intro heq
            rw [if_pos heq] at hnful
            exact hnful rfl
          show (if c.length ≠ expected.getD i 0 then none else some c) = none
          rw [if_pos hne]

/-- Witness for `cleanup_spec_amended`: with segment 0 corrupted (7 of 5
bytes), segment 1 partial (2 of 5) and segment 2 complete, the cleanup
keeps segment 2, deletes segment 1, and a deleted segment restarts from its
original start byte. -/
theorem cleanup_spec_amended_witness :
    (preFetchCleanup [some [0, 0, 0, 0, 0, 0, 0], some [0, 0],
        some [0, 0, 0, 0, 0]] [5, 5, 5]).getD 2 none = some [0, 0, 0, 0, 0] ∧
    (preFetchCleanup [some [0, 0, 0, 0, 0, 0, 0], some [0, 0],
        some [0, 0, 0, 0, 0]] [5, 5, 5]).getD 1 none = none ∧
    getCurrentStart none 5 5 = (none, some 5) := by
  have h := cleanup_spec_amended
    [some [0, 0, 0, 0, 0, 0, 0], some [0, 0], some [0, 0, 0, 0, 0]]
    [5, 5, 5] (by decide)
  exact ⟨(h.2.1 (by decide) 2 (by decide)).1 (by decide),
    (h.2.1 (by decide) 1 (by decide)).2 (by decide),
    h.2.2 5 5⟩

/-- Embedding of `Downloader.check_exists` (src/fetchr/main.py): Python
returns `True` when the filename is truthy, the artifact exists and its
on-disk size equals the descriptor size; `False` when it exists with a
different size; and falls through (returning `None`) when the filename is
falsy or the artifact does not exist.  `artifact` is the on-disk size of
`{download_dir}/{filename}` when that file exists. -/
def check_exists (filenameTruthy : Bool) (artifact : Option Nat)
    (infoSize : Nat) : Option Bool :=
  match filenameTruthy, artifact with
  | true, some sz => if infoSize = sz then some true else some false
  | _, _ => none

/-- The observable actions of `Downloader.process_download`
(src/fetchr/main.py), in program order. -/
inductive PEv where
  | evCheck
  | evAcqGlobal
  | evAcqHost
  | evRun
  | evRelHost
  | evRelGlobal
  deriving DecidableEq, Repr

/-- Embedding of `Downloader.process_download`: first `check_exists`; a
truthy result returns `True` immediately; otherwise the job enters
`async with self.global_sempaphore`, then — when a host semaphore is
configured — `async with host_semapthore`, runs `start_download`, and the
`async with` blocks release host first, then global.  Result component:
`true` iff the download was skipped because the artifact already exists. -/
def process_download (filenameTruthy : Bool) (artifact : Option Nat)
    (infoSize : Nat) (hasHostSem : Bool) : Bool × List PEv :=
  match check_exists filenameTruthy artifact infoSize with
  | some true => (true, [PEv.evCheck])
  | _ =>
      if hasHostSem then
        (false, [PEv.evCheck, PEv.evAcqGlobal, PEv.evAcqHost, PEv.evRun,
          PEv.evRelHost, PEv.evRelGlobal])
      else
        (false, [PEv.evCheck, PEv.evAcqGlobal, PEv.evRun, PEv.evRelGlobal])

/-- The counters of `ConcurrencyManager`
(src/fetchr/concurrency_manager.py) for one host: `active_downloads[host]`,
`total_downloads`, `successful_downloads`, `failed_downloads`. -/
structure CMStats where
  active : Nat
  total : Nat
  succ : Nat
  failed : Nat
  deriving DecidableEq, Repr

/-- The limiter actions of `ConcurrencyManager.download_with_limit`. -/
inductive CMEv where
  | acqSem
  | runJob
  | relSem
  deriving DecidableEq, Repr

/-- Embedding of `ConcurrencyManager.download_with_limit`: inside
`async with semaphore` (the *only* limiter this method acquires) it
increments the active and total counters, runs the job, increments the
success or failure counter according to the outcome, and in the `finally`
block decrements the active counter before the semaphore is released.
Returns the final counters, the propagated outcome, and the limiter
actions in order. -/
def download_with_limit (st : CMStats) (jobSucceeds : Bool) :
    CMStats × Bool × List CMEv :=
  let st1 : CMStats :=
    { st with active := st.active + 1, total := st.total + 1 }
  let st2 : CMStats :=
    if jobSucceeds then { st1 with succ := st1.succ + 1 }
    else { st1 with failed := st1.failed + 1 }
  let st3 : CMStats := { st2 with active := st2.active - 1 }
  (st3, jobSucceeds, [CMEv.acqSem, CMEv.runJob, CMEv.relSem])

/-- C10: when the final artifact exists with exactly the descriptor size,
`process_download` returns `True` having performed only the existence
check — no limiter acquisition, no transfer, no file modification; when the
artifact is missing or has a different size, the download proceeds
normally (the global limiter is acquired and `start_download` runs). -/
theorem skip_existing_file (ft : Bool) (art : Option Nat) (sz : Nat)
    (hs : Bool) :
    (ft = true → art = some sz →
      process_download ft art sz hs = (true, [PEv.evCheck])) ∧
    (art = none →
      (process_download ft art sz hs).1 = false ∧
      PEv.evAcqGlobal ∈ (process_download ft art sz hs).2 ∧
      PEv.evRun ∈ (process_download ft art sz hs).2) ∧
    (∀ s, art = some s → s ≠ sz →
      (process_download ft art sz hs).1 = false ∧
      PEv.evAcqGlobal ∈ (process_download ft art sz hs).2 ∧
      PEv.evRun ∈ (process_download ft art sz hs).2) := by
  refine ⟨?_, ?_, ?_⟩
  · intro hft hart
    subst hft
    subst hart
    simp [process_download, check_exists]
  · intro hart
    subst hart
    have hc : check_exists ft none sz = none := by
      cases ft <;> rfl
    simp only [process_download, hc]
    cases hs <;> simp
  · intro s hart hne
    subst hart
    have hc : check_exists ft (some s) sz = none ∨
        check_exists ft (some s) sz = some false := by
      cases ft
      · exact Or.inl rfl
      · right
        simp [check_exists]
        omega
    rcases hc with hc | hc <;>
      · simp only [process_download, hc]
        cases hs <;> simp

/-- Witness for `skip_existing_file`: a 100-byte artifact against a
100-byte descriptor is skipped with only the existence check performed; a
missing artifact and a 50-byte artifact both proceed to the download. -/
theorem skip_existing_file_witness :
    process_download true (some 100) 100 true = (true, [PEv.evCheck]) ∧
    (process_download true none 100 true).1 = false ∧
    (process_download true (some 50) 100 true).1 = false ∧
    PEv.evRun ∈ (process_download true (some 50) 100 true).2 := by
  refine ⟨(skip_existing_file true (some 100) 100 true).1 rfl rfl,
    ((skip_existing_file true none 100 true).2.1 rfl).1,
    ?_, ?_⟩
  · exact ((skip_existing_file true (some 50) 100 true).2.2 50 rfl
      (by decide)).1
  · exact ((skip_existing_file true (some 50) 100 true).2.2 50 rfl
      (by decide)).2.2

/-- C8 counterexample: on the download path with a configured host
semaphore, `process_download` acquires the **global** limiter strictly
before the per-host limiter — the claimed order (host first, global
second) is false. -/
theorem acquire_order_cex :
    (process_download true none 100 true).2 =
      [PEv.evCheck, PEv.evAcqGlobal, PEv.evAcqHost, PEv.evRun,
        PEv.evRelHost, PEv.evRelGlobal] ∧
    (process_download true none 100 true).2.indexOf PEv.evAcqGlobal <
      (process_download true none 100 true).2.indexOf PEv.evAcqHost ∧
    ¬ ((process_download true none 100 true).2.indexOf PEv.evAcqHost <
        (process_download true none 100 true).2.indexOf PEv.evAcqGlobal) := by
  decide

/-- C8 amended: on every non-skipped run, `process_download` acquires the
global limiter first and the per-host limiter second (when one is
configured), runs the job, and the `async with` blocks guarantee release
in reverse order; `ConcurrencyManager.download_with_limit` acquires only
the per-host limiter, and its guaranteed-cleanup block restores the active
counter, increments the total counter, updates the success or failure
counter according to the outcome, propagates the outcome, and releases the
limiter. -/
theorem admission_order_amended (ft : Bool) (art : Option Nat) (sz : Nat)
    (st : CMStats) (ok : Bool) (hrun : check_exists ft art sz ≠ some true) :
    (process_download ft art sz true).2 =
      [PEv.evCheck, PEv.evAcqGlobal, PEv.evAcqHost, PEv.evRun,
        PEv.evRelHost, PEv.evRelGlobal] ∧
    (process_download ft art sz false).2 =
      [PEv.evCheck, PEv.evAcqGlobal, PEv.evRun, PEv.evRelGlobal] ∧
    (download_with_limit st ok).1.active = st.active ∧
    (download_with_limit st ok).1.total = st.total + 1 ∧
    (ok = true → (download_with_limit st ok).1.succ = st.succ + 1 ∧
      (download_with_limit st ok).1.failed = st.failed) ∧
    (ok = false → (download_with_limit st ok).1.failed = st.failed + 1 ∧
      (download_with_limit st ok).1.succ = st.succ) ∧
    (download_with_limit st ok).2.1 = ok ∧
    (download_with_limit st ok).2.2 = [CMEv.acqSem, CMEv.runJob, CMEv.relSem] := by
  have hmatch : ∀ hs : Bool, (process_download ft art sz hs) =
      (if hs then
        (false, [PEv.evCheck, PEv.evAcqGlobal, PEv.evAcqHost, PEv.evRun,
          PEv.evRelHost, PEv.evRelGlobal])
      else (false, [PEv.evCheck, PEv.evAcqGlobal, PEv.evRun, PEv.evRelGlobal])) := by
    intro hs
    cases hc : check_exists ft art sz with
    | none => simp [process_download, hc]
    | some b =>
        cases b with
        | false => simp [process_download, hc]
        | true => exact absurd hc hrun
  refine ⟨by rw [hmatch true]; rfl, by rw [hmatch false]; rfl, ?_, ?_, ?_, ?_, ?_, ?_⟩ <;>
    cases ok <;> simp [download_with_limit]

/-- Witness for `admission_order_amended` at a missing artifact, counters
`(active, total, succ, failed) = (2, 5, 3, 1)` and a successful job. -/
theorem admission_order_amended_witness :
    (process_download true none 100 true).2 =
      [PEv.evCheck, PEv.evAcqGlobal, PEv.evAcqHost, PEv.evRun,
        PEv.evRelHost, PEv.evRelGlobal] ∧
    (download_with_limit ⟨2, 5, 3, 1⟩ true).1 = ⟨2, 6, 4, 1⟩ := by
  have h := admission_order_amended true none 100 ⟨2, 5, 3, 1⟩ true
    (by decide)
  refine ⟨h.1, ?_⟩
  have h3 := h.2.2.1
  have h4 := h.2.2.2.1
  have h5 := (h.2.2.2.2.1 rfl).1
  have h6 := (h.2.2.2.2.1 rfl).2
  cases hdl : (download_with_limit ⟨2, 5, 3, 1⟩ true).1
  rw [hdl] at h3 h4 h5 h6
  simp_all

/-- `needle` occurs at the head of `haystack` (strings modelled as lists of
characters). -/
def listStarts : List Char → List Char → Bool
  | [], _ => true
  | _ :: _, [] => false
  | a :: as, b :: bs => a == b && listStarts as bs

/-- The Python substring test `needle in haystack`. -/
def listIn (nd : List Char) : List Char → Bool
  | [] => nd.isEmpty
  | c :: tl => listStarts nd (c :: tl) || listIn nd tl

/-- The `www.` stripping at the top of `ConcurrencyManager.get_semaphore`. -/
def cleanHost (h : List Char) : List Char :=
  if listStarts "www.".toList h then h.drop 4 else h

/-- The `default_limits` dict of `ConcurrencyManager.__init__`, in insertion
order. -/
def defaultLimits : List (List Char × Nat) :=
  [("pixeldrain.com".toList, 10), ("gofile.io".toList, 5),
   ("anonfile.de".toList, 20), ("filedot.to".toList, 5),
   ("desiupload.co".toList, 2), ("axfc.net".toList, 20),
   ("filemirage.com".toList, 5), ("uploadhive.com".toList, 5),
   ("default".toList, 1)]

/-- Python dict merge `{**default_limits, **(host_limits or {})}`: base keys
keep their position (values updated from `custom`), keys new in `custom`
are appended in order. -/
def mergeLimits (base custom : List (List Char × Nat)) :
    List (List Char × Nat) :=
  (base.map (fun e =>
    match custom.find? (fun c => c.1 == e.1) with
    | some c => (e.1, c.2)
    | none => e)) ++
  custom.filter (fun c => base.all (fun e => !(e.1 == c.1)))

/-- Embedding of `ConcurrencyManager.get_semaphore`: after stripping
`www.`, scan `self.host_semaphores` in insertion order and return the first
entry whose key is a substring of the host or of which the host is a
substring; fall back to the `default` entry.  A semaphore is identified
with its `(key, capacity)` entry. -/
def get_semaphore (entries : List (List Char × Nat)) (host0 : List Char) :
    List Char × Nat :=
  let host := cleanHost host0
  match entries.find? (fun e => listIn e.1 host || listIn host e.1) with
  | some e => e
  | none => (entries.find? (fun e => e.1 == "default".toList)).getD
      ("default".toList, 1)

/-- Lifecycle of one admitted job: waiting for the semaphore, running
inside `async with semaphore` (i.e. inside
`ConcurrencyManager.download_with_limit`), finished. -/
inductive Phase where
  | waiting
  | running
  | finished
  deriving DecidableEq, Repr

/-- The number of jobs currently running under semaphore `s`. -/
def runningCount {K : Nat} {σ : Type} [DecidableEq σ] (semOf : Fin K → σ)
    (st : Fin K → Phase) (s : σ) : Nat :=
  (Finset.univ.filter (fun j => semOf j = s ∧ st j = Phase.running)).card

/-- Interleaving semantics of `K` concurrent `download_with_limit` calls:
a waiting job enters `async with semaphore` only when fewer than the
semaphore capacity of its governing semaphore are inside (the asyncio
semaphore acquired in src/fetchr/concurrency_manager.py), and a running
job may finish at any time, releasing the semaphore. -/
inductive Step {K : Nat} {σ : Type} [DecidableEq σ] (semOf : Fin K → σ)
    (cap : σ → Nat) : (Fin K → Phase) → (Fin K → Phase) → Prop where
  | start (st : Fin K → Phase) (j : Fin K) (hw : st j = Phase.waiting)
      (hroom : runningCount semOf st (semOf j) < cap (semOf j)) :
      Step semOf cap st (Function.update st j Phase.running)
  | finish (st : Fin K → Phase) (j : Fin K) (hr : st j = Phase.running) :
      Step semOf cap st (Function.update st j Phase.finished)

/-- States reachable from all-waiting by the admission semantics. -/
def Reachable {K : Nat} {σ : Type} [DecidableEq σ] (semOf : Fin K → σ)
    (cap : σ → Nat) (st : Fin K → Phase) : Prop :=
  Relation.ReflTransGen (Step semOf cap) (fun _ => Phase.waiting) st

lemma runningCount_update_ne {K : Nat} {σ : Type} [DecidableEq σ]
    (semOf : Fin K → σ) (st : Fin K → Phase) (j : Fin K) (p : Phase) (s : σ)
    (hs : semOf j ≠ s) :
    runningCount semOf (Function.update st j p) s = runningCount semOf st s := by
  unfold runningCount
  congr 1
  ext j'
  simp only [Finset.mem_filter, Finset.mem_univ, true_and]
  by_cases hj : j' = j
  · subst hj
    constructor <;> (rintro ⟨h1, h2⟩; exact absurd h1 hs)
  · rw [Function.update_noteq hj]

lemma runningCount_start_eq {K : Nat} {σ : Type} [DecidableEq σ]
    (semOf : Fin K → σ) (st : Fin K → Phase) (j : Fin K)
    (hw : st j = Phase.waiting) :
    runningCount semOf (Function.update st j Phase.running) (semOf j) =
      runningCount semOf st (semOf j) + 1 := by
  unfold runningCount
  have hnm : j ∉ Finset.univ.filter
      (fun j' => semOf j' = semOf j ∧ st j' = Phase.running) := by
    simp [hw]
  have hset : Finset.univ.filter
      (fun j' => semOf j' = semOf j ∧
        Function.update st j Phase.running j' = Phase.running)
      = insert j (Finset.univ.filter
          (fun j' => semOf j' = semOf j ∧ st j' = Phase.running)) := by
    ext j'
    simp only [Finset.mem_filter, Finset.mem_univ, true_and,
      Finset.mem_insert]
    by_cases hj : j' = j
    · subst hj
      simp [Function.update_same]
    · rw [Function.update_noteq hj]
      simp [hj]
  rw [hset, Finset.card_insert_of_not_mem hnm]

lemma runningCount_finish_le {K : Nat} {σ : Type} [DecidableEq σ]
    (semOf : Fin K → σ) (st : Fin K → Phase) (j : Fin K) (s : σ) :
    runningCount semOf (Function.update st j Phase.finished) s ≤
      runningCount semOf st s := by
  apply Finset.card_le_card
  intro j' hj'
  simp only [Finset.mem_filter, Finset.mem_univ, true_and] at hj' ⊢
  by_cases hj : j' = j
  · subst hj
    rw [Function.update_same] at hj'
    exact absurd hj'.2 (by simp)
  · rwa [Function.update_noteq hj] at hj'

/-- In every reachable state, the number of jobs running under any
semaphore never exceeds its capacity. -/
lemma sem_bound_inv {K : Nat} {σ : Type} [DecidableEq σ] (semOf : Fin K → σ)
    (cap : σ → Nat) (st : Fin K → Phase)
    (h : Relation.ReflTransGen (Step semOf cap) (fun _ => Phase.waiting) st)
    (s : σ) : runningCount semOf st s ≤ cap s := by
  induction h with
  | refl => simp [runningCount]
  | tail hsteps hstep ih =>
      cases hstep with
      | start j hw hroom =>
          by_cases hs : semOf j = s
          · subst hs
            rw [runningCount_start_eq semOf _ j hw]
            omega
          · rw [runningCount_update_ne semOf _ j _ s hs]
            exact ih
      | finish j hr =>
          exact le_trans (runningCount_finish_le semOf _ j s) ih

/-- The merged limits of `ConcurrencyManager(host_limits={"file.io": 1})`. -/
def cexEntries : List (List Char × Nat) :=
  mergeLimits defaultLimits [("file.io".toList, 1)]

/-- The semaphore actually governing host `file.io` under `cexEntries`. -/
def cexGov : List Char × Nat := get_semaphore cexEntries "file.io".toList

/-- Two jobs submitted for host `file.io`, each governed by the semaphore
`get_semaphore` resolves for that host. -/
def cexSemOf : Fin 2 → List Char × Nat := fun _ => cexGov

/-- State after job 0 was admitted. -/
def cexSt1 : Fin 2 → Phase :=
  Function.update (fun _ => Phase.waiting) 0 Phase.running

/-- State after jobs 0 and 1 were both admitted. -/
def cexSt2 : Fin 2 → Phase := Function.update cexSt1 1 Phase.running

/-- C7 counterexample: host `file.io` is configured with
`max_concurrent = 1` in the merged limits, yet `get_semaphore` resolves it
to the `gofile.io` entry (capacity 5) because the insertion-order substring
scan finds `"file.io" in "gofile.io"` first.  Submitting `K = 2` jobs for
`file.io` reaches a state in which both are running simultaneously, so
more than `M = 1` of that host's jobs run at once. -/
theorem host_limit_shadow_cex :
    cexEntries.find? (fun e => e.1 == "file.io".toList) =
      some ("file.io".toList, 1) ∧
    cexGov = ("gofile.io".toList, 5) ∧
    Reachable cexSemOf (fun e => e.2) cexSt2 ∧
    runningCount cexSemOf cexSt2 cexGov = 2 ∧
    ¬ (runningCount cexSemOf cexSt2 cexGov ≤ 1) := by
  refine ⟨by decide, by decide, ?_, by decide, by decide⟩
  have h1 : Step cexSemOf (fun e => e.2) (fun _ => Phase.waiting) cexSt1 :=
    Step.start _ 0 rfl (by decide)
  have h2 : Step cexSemOf (fun e => e.2) cexSt1 cexSt2 :=
    Step.start _ 1 (by decide) (by decide)
  exact Relation.ReflTransGen.head h1 (Relation.ReflTransGen.single h2)

/-- C7 amended: every job admitted through `download_with_limit` runs under
the semaphore `get_semaphore` resolves for its host, and in every reachable
state at most that semaphore's capacity of its jobs run simultaneously
(when the host's own entry is the first substring match this capacity is
the host's configured `max_concurrent`; a host shadowed by an earlier
substring-matching key, such as `file.io` by `gofile.io`, is governed by
that earlier limiter instead).  Jobs governed by a different limiter are
unaffected: a waiting job whose own limiter has room can always be
admitted, whatever the counts of other limiters. -/
theorem host_limit_bound (entries : List (List Char × Nat)) {K : Nat}
    (hostOf : Fin K → List Char) (st : Fin K → Phase)
    (h : Reachable (fun j => get_semaphore entries (hostOf j))
      (fun e => e.2) st) :
    (∀ host, runningCount (fun j => get_semaphore entries (hostOf j)) st
        (get_semaphore entries host) ≤ (get_semaphore entries host).2) ∧
    (∀ j, st j = Phase.waiting →
      runningCount (fun j' => get_semaphore entries (hostOf j')) st
          (get_semaphore entries (hostOf j)) <
        (get_semaphore entries (hostOf j)).2 →
      Step (fun j' => get_semaphore entries (hostOf j')) (fun e => e.2) st
        (Function.update st j Phase.running)) :=
  ⟨fun host => sem_bound_inv _ _ _ h _,
   fun j hw hroom => Step.start _ j hw hroom⟩

/-- Witness for `host_limit_bound`: one job for `gofile.io` under the
default limits, in the initial state. -/
theorem host_limit_bound_witness :
    runningCount (fun j : Fin 1 => get_semaphore defaultLimits
        ((fun _ : Fin 1 => "gofile.io".toList) j))
      (fun _ => Phase.waiting)
      (get_semaphore defaultLimits "gofile.io".toList) ≤
      (get_semaphore defaultLimits "gofile.io".toList).2 :=
  (host_limit_bound defaultLimits (fun _ : Fin 1 => "gofile.io".toList)
    (fun _ => Phase.waiting) Relation.ReflTransGen.refl).1 "gofile.io".toList

end Fetchr
